import Mathlib

/-!
A shallow embedding of the LinkedIn profile extraction engine from
`src/lib/linkedin-extractor.ts` of the klen-chrome-extension repository,
together with proofs of the specified properties.

The DOM is modelled abstractly: a document answers each selector string with
either a thrown error (invalid selector) or a list of matched elements, and an
element carries its text content, its `src` and `href` attributes, and a table
answering its own sub-queries.  JavaScript strings are Lean `String`s
(`List Char` underneath); the fixed regular expressions of the source are
embedded as hand-written backtracking matchers that follow the JS semantics of
the concrete patterns (lazy and greedy quantifiers, alternation preference,
case-insensitive ASCII matching).  Every definition is executable.
-/

/-! ## JavaScript string primitives -/

/-- The whitespace characters recognised by the JS `\s` class and `trim()`
that can occur in the embedded code paths (ASCII whitespace). -/
def isJsWs (c : Char) : Bool :=
  c = ' ' || c = '\t' || c = '\n' || c = '\r' || c = '\x0b' || c = '\x0c'

/-- Drop leading and trailing whitespace from a character list (JS `trim()`). -/
def trimChars (l : List Char) : List Char :=
  ((l.dropWhile isJsWs).reverse.dropWhile isJsWs).reverse

/-- JS `s.trim()`. -/
def jsTrim (s : String) : String :=
  String.mk (trimChars s.data)

/-- JS `s.replace(/\s+/g, " ")`: every maximal whitespace run becomes one
single space. -/
def collapseWs : List Char → List Char
  | [] => []
  | [c] => [if isJsWs c then ' ' else c]
  | c1 :: c2 :: rest =>
    if isJsWs c1 && isJsWs c2 then collapseWs (c2 :: rest)
    else (if isJsWs c1 then ' ' else c1) :: collapseWs (c2 :: rest)

/-- The composite `(s || "").trim().replace(/\s+/g, " ")` normalisation used
by `getTextContent`. -/
def normText (s : String) : String :=
  String.mk (collapseWs (trimChars s.data))

/-- JS `s.split(sep)` for a single-character separator.  `"".split(" ")`
returns `[""]`, matching the base case. -/
def splitOnChar (sep : Char) : List Char → List (List Char)
  | [] => [[]]
  | c :: rest =>
    let r := splitOnChar sep rest
    if c = sep then [] :: r
    else
      match r with
      | [] => [[c]]
      | p :: ps => (c :: p) :: ps

/-- JS `parts.join(sep)` for a single-character separator. -/
def joinSep (sep : Char) : List (List Char) → List Char
  | [] => []
  | [p] => p
  | p :: ps => p ++ sep :: joinSep sep ps

/-- JS `s.toLowerCase()` restricted to ASCII case mapping, which is the only
case mapping exercised by the embedded code paths. -/
def lowerStr (s : String) : String :=
  String.mk (s.data.map Char.toLower)

/-- JS `hay.includes(needle)` on character lists. -/
def hasSubstr (needle : List Char) : List Char → Bool
  | [] => needle.isPrefixOf []
  | hay@(_ :: rest) => needle.isPrefixOf hay || hasSubstr needle rest

/-- JS `a || b` for strings: the empty string is falsy. -/
def jsOr (a b : String) : String :=
  if a = "" then b else a

/-- JS `s || undefined`: an empty string becomes `undefined` (absence). -/
def jsUndef (s : String) : Option String :=
  if s = "" then none else some s

/-- JS `a || b` where `a` is a possibly-undefined string and `b` is a
possibly-undefined fallback: `undefined` and `""` are falsy. -/
def jsOrOpt (a b : Option String) : Option String :=
  match a with
  | none => b
  | some s => if s = "" then b else some s

/-- JS truthiness of a possibly-undefined string. -/
def truthyOpt (o : Option String) : Bool :=
  match o with
  | none => false
  | some s => !s.isEmpty

/-! ## Backtracking helpers for the embedded regular expressions

Each fixed regular expression of the source is embedded as a matcher over
`List Char`.  Candidate continuations are enumerated in the exact preference
order of the JS backtracking engine: greedy quantifiers longest-first, lazy
quantifiers shortest-first, alternatives left-to-right; `firstSome` commits to
the first candidate whose continuation succeeds. -/

/-- Return the first `some` produced by `f` along the list, in order. -/
def firstSome (f : α → Option β) : List α → Option β
  | [] => none
  | a :: as =>
    match f a with
    | some b => some b
    | none => firstSome f as

/-- Greedy `p*`: remaining suffixes after consuming `0..m` matching
characters, longest consumption first. -/
def greedyStarS (p : Char → Bool) (l : List Char) : List (List Char) :=
  (List.range ((l.takeWhile p).length + 1)).reverse.map fun j => l.drop j

/-- Greedy `p+`: remaining suffixes after consuming `1..m` matching
characters, longest consumption first. -/
def greedyPlusS (p : Char → Bool) (l : List Char) : List (List Char) :=
  (List.range ((l.takeWhile p).length)).reverse.map fun j => l.drop (j + 1)

/-- Lazy `p+?` with capture: pairs of (captured characters, remaining suffix),
shortest capture first. -/
def lazyPlusC (p : Char → Bool) (l : List Char) : List (List Char × List Char) :=
  (List.range ((l.takeWhile p).length)).map fun j => (l.take (j + 1), l.drop (j + 1))

/-- Greedy `p*` with capture: pairs of (captured characters, remaining
suffix), longest capture first. -/
def greedyStarC (p : Char → Bool) (l : List Char) : List (List Char × List Char) :=
  (List.range ((l.takeWhile p).length + 1)).reverse.map fun j => (l.take j, l.drop j)

/-- Greedy `p+` with capture, longest capture first. -/
def greedyPlusC (p : Char → Bool) (l : List Char) : List (List Char × List Char) :=
  (List.range ((l.takeWhile p).length)).reverse.map fun j => (l.take (j + 1), l.drop (j + 1))

/-- The JS `\w` class: `[A-Za-z0-9_]`. -/
def isWordChar (c : Char) : Bool :=
  c.isAlphanum || c = '_'

/-- The JS `.` class outside dot-all mode: any character except a line
terminator. -/
def isDotChar (c : Char) : Bool :=
  c ≠ '\n' && c ≠ '\r' && c ≠ '\u2028' && c ≠ '\u2029'

/-- Match `\d{4}`: capture exactly four digits. -/
def digits4C (l : List Char) : Option (List Char × List Char) :=
  match l with
  | c1 :: c2 :: c3 :: c4 :: rest =>
    if c1.isDigit && c2.isDigit && c3.isDigit && c4.isDigit then
      some ([c1, c2, c3, c4], rest)
    else none
  | _ => none

/-- Match a literal ASCII pattern case-insensitively (the JS `i` flag on an
ASCII pattern), returning the remaining suffix. -/
def matchLiteralCI : List Char → List Char → Option (List Char)
  | [], l => some l
  | _ :: _, [] => none
  | p :: ps, c :: cs => if c.toLower = p.toLower then matchLiteralCI ps cs else none

/-- Match the literal `Present` case-insensitively, with capture. -/
def presentC (l : List Char) : Option (List Char × List Char) :=
  match matchLiteralCI "Present".data l with
  | some rest => some ((l.take 7), rest)
  | none => none

/-! ## `parseDateRange` — the regex
`/(\w+\s*\d{4}|\d{4})\s*[-\x2013]\s*(\w+\s*\d{4}|\d{4}|Present)/i`
(the second dash alternative is the en-dash U+2013). -/

/-- Candidates for the sub-pattern `\w+\s*\d{4}` with capture, in backtracking
preference order. -/
def monthYearC (l : List Char) : List (List Char × List Char) :=
  (greedyPlusC isWordChar l).flatMap fun wp =>
    (greedyStarC isJsWs wp.2).filterMap fun sp =>
      (digits4C sp.2).map fun dp => (wp.1 ++ sp.1 ++ dp.1, dp.2)

/-- Candidates for the first capture group `(\w+\s*\d{4}|\d{4})`, first
alternative preferred. -/
def periodTok1C (l : List Char) : List (List Char × List Char) :=
  monthYearC l ++ (digits4C l).toList

/-- Suffixes after matching the separator `\s*[-\x2013]\s*`, in backtracking
preference order. -/
def dateSepEnds (l : List Char) : List (List Char) :=
  (greedyStarS isJsWs l).flatMap fun l1 =>
    match l1 with
    | c :: rest => if c = '-' || c = '–' then greedyStarS isJsWs rest else []
    | [] => []

/-- First-preference capture of the second group `(\w+\s*\d{4}|\d{4}|Present)`.
Nothing follows the group in the pattern, so the first alternative that
matches at all is the one the engine commits to. -/
def periodTok2C (l : List Char) : Option (List Char) :=
  ((monthYearC l ++ (digits4C l).toList ++ (presentC l).toList).head?).map Prod.fst

/-- Attempt the date-range pattern anchored at the current position, returning
the two captured groups. -/
def dateMatchAt (l : List Char) : Option (List Char × List Char) :=
  firstSome (fun g1p =>
    firstSome (fun l2 =>
      (periodTok2C l2).map fun g2 => (g1p.1, g2))
      (dateSepEnds g1p.2))
    (periodTok1C l)

/-- Unanchored search for the date-range pattern: leftmost start position
wins, as with JS `String.match`. -/
def dateSearch : List Char → Option (List Char × List Char)
  | [] => dateMatchAt []
  | l@(_ :: rest) =>
    match dateMatchAt l with
    | some r => some r
    | none => dateSearch rest

/-- `parseDateRange` from the source: `{}` on falsy input or no match,
otherwise `{start: match[1].trim(), end: match[2].trim()}`. -/
def parseDateRange (dateText : String) : Option String × Option String :=
  if dateText = "" then (none, none)
  else
    match dateSearch dateText.data with
    | some (g1, g2) => (some (jsTrim (String.mk g1)), some (jsTrim (String.mk g2)))
    | none => (none, none)

/-! ## `parseHeadlineForJob` — the regexes
`/^(.+?)\s+at\s+(.+?)(?:\s*[|\xb7]|$)/i` and
`/^(.+?)\s*[|\xb7]\s*(.+?)(?:\s*[|\xb7]|$)/` (the second class character is
the middle dot U+00B7). -/

/-- The trailing non-capturing group `(?:\s*[|\xb7]|$)`: either optional
whitespace followed by a pipe or middle dot, or the end of the string.  The
separator characters are not whitespace, so the greedy `\s*` has a unique
viable consumption. -/
def tailSepOrEnd (l : List Char) : Bool :=
  (match l.dropWhile isJsWs with
   | c :: _ => c = '|' || c = '·'
   | [] => false) || l.isEmpty

/-- The anchored `"<title> at <company>"` pattern, returning the two captured
groups in JS backtracking order (both groups lazy). -/
def atMatchC (l : List Char) : Option (List Char × List Char) :=
  firstSome (fun g1p =>
    firstSome (fun l2 =>
      match matchLiteralCI "at".data l2 with
      | none => none
      | some l3 =>
        firstSome (fun l4 =>
          firstSome (fun g2p =>
            if tailSepOrEnd g2p.2 then some (g1p.1, g2p.1) else none)
            (lazyPlusC isDotChar l4))
          (greedyPlusS isJsWs l3))
      (greedyPlusS isJsWs g1p.2))
    (lazyPlusC isDotChar l)

/-- The anchored `"<title> | <company>"` pattern (pipe or middle dot),
returning the two captured groups. -/
def pipeMatchC (l : List Char) : Option (List Char × List Char) :=
  firstSome (fun g1p =>
    firstSome (fun l2 =>
      match l2 with
      | c :: rest =>
        if c = '|' || c = '·' then
          firstSome (fun l3 =>
            firstSome (fun g2p =>
              if tailSepOrEnd g2p.2 then some (g1p.1, g2p.1) else none)
              (lazyPlusC isDotChar l3))
            (greedyStarS isJsWs rest)
        else none
      | [] => none)
      (greedyStarS isJsWs g1p.2))
    (lazyPlusC isDotChar l)

/-- The `at` pattern as a `String`-level partial function, groups trimmed as
in the source. -/
def atMatch (headline : String) : Option (String × String) :=
  (atMatchC headline.data).map fun g =>
    (jsTrim (String.mk g.1), jsTrim (String.mk g.2))

/-- The pipe pattern as a `String`-level partial function, groups trimmed as
in the source. -/
def pipeMatch (headline : String) : Option (String × String) :=
  (pipeMatchC headline.data).map fun g =>
    (jsTrim (String.mk g.1), jsTrim (String.mk g.2))

/-- `parseHeadlineForJob` from the source: `{}` on a falsy headline, then the
`at` pattern, then the pipe pattern, otherwise the whole headline as the
title with no company. -/
def parseHeadlineForJob (headline : String) : Option String × Option String :=
  if headline = "" then (none, none)
  else
    match atMatch headline with
    | some (t, c) => (some t, some c)
    | none =>
      match pipeMatch headline with
      | some (t, c) => (some t, some c)
      | none => (some headline, none)

/-! ## URL canonicalisation and the page classifier -/

/-- JS `href.split("?")[0]`: the prefix before the first question mark. -/
def stripQuery (s : String) : String :=
  String.mk (s.data.takeWhile fun c => c ≠ '?')

/-- JS `s.replace(/\/$/, "")`: remove one trailing slash when present. -/
def stripTrailingSlash (s : String) : String :=
  match s.data.reverse with
  | '/' :: rest => String.mk rest.reverse
  | _ => s

/-- The canonicalisation `href.split("?")[0].replace(/\/$/, "")` applied by
`extractProfileUrl` to whichever href it selects. -/
def canonicalizeHref (href : String) : String :=
  stripTrailingSlash (stripQuery href)

/-- The pattern `linkedin\.com\/in\/` as a character list. -/
def linkedinInPat : List Char :=
  "linkedin.com/in/".data

/-- Attempt `/linkedin\.com\/in\/([^/?#]+)/i` anchored at the current
position: after the case-insensitive literal, the capture is the maximal
nonempty run of characters other than slash, question mark and hash. -/
def pubIdAt (l : List Char) : Option (List Char) :=
  match matchLiteralCI linkedinInPat l with
  | none => none
  | some rest =>
    let cap := rest.takeWhile fun c => c ≠ '/' && c ≠ '?' && c ≠ '#'
    if cap.isEmpty then none else some cap

/-- Unanchored, leftmost-first search for the public-identifier pattern. -/
def pubIdSearch : List Char → Option (List Char)
  | [] => pubIdAt []
  | l@(_ :: rest) =>
    match pubIdAt l with
    | some cap => some cap
    | none => pubIdSearch rest

/-- `extractPublicIdentifier` from the source:
`url.match(/linkedin\.com\/in\/([^/?#]+)/i)` and `match[1].toLowerCase()`,
`null` when there is no match. -/
def extractPublicIdentifier (url : String) : Option String :=
  (pubIdSearch url.data).map fun cap => lowerStr (String.mk cap)

/-- Anchored attempt of `/linkedin\.com\/in\/[^/]+/i`: the literal followed
by at least one non-slash character. -/
def profilePageAt (l : List Char) : Bool :=
  match matchLiteralCI linkedinInPat l with
  | some (c :: _) => c ≠ '/'
  | _ => false

/-- Unanchored search used by `RegExp.test`. -/
def profilePageSearch : List Char → Bool
  | [] => profilePageAt []
  | l@(_ :: rest) => profilePageAt l || profilePageSearch rest

/-- `isLinkedInProfilePage` from the source:
`/linkedin\.com\/in\/[^/]+/i.test(url)` on the current location URL (taken
here as an argument). -/
def isLinkedInProfilePage (url : String) : Bool :=
  profilePageSearch url.data

/-! ## The DOM model

A document answers each selector string with a `QRes`: either a thrown
error — the behaviour of `querySelector`/`querySelectorAll` on a selector the
engine cannot parse — or the (possibly empty) list of matched elements in
document order.  An element carries its text content (`textContent` may be
null), its `src` and `href` attributes, and an association table answering the
sub-queries (`item.querySelector(...)`) made on it; the fixed sub-query
selector literals of the source are syntactically valid, so element-level
queries are modelled as non-throwing. -/

/-- A DOM element. -/
inductive Elem where
  | mk (textContent : Option String) (src href : Option String)
       (sub : List (String × List Elem)) : Elem

/-- The `textContent` property. -/
def Elem.textContent : Elem → Option String
  | .mk t _ _ _ => t

/-- The `src` attribute (for image elements). -/
def Elem.src : Elem → Option String
  | .mk _ s _ _ => s

/-- The `href` attribute (for link elements). -/
def Elem.href : Elem → Option String
  | .mk _ _ h _ => h

/-- The sub-query table of an element. -/
def Elem.sub : Elem → List (String × List Elem)
  | .mk _ _ _ q => q

/-- Look a selector up in a sub-query table; a selector not listed matches
nothing. -/
def subLookup (tbl : List (String × List Elem)) (sel : String) : List Elem :=
  match tbl with
  | [] => []
  | (s, els) :: rest => if s = sel then els else subLookup rest sel

/-- `element.querySelectorAll(sel)` for the fixed, syntactically valid
selector literals used on section and item elements. -/
def Elem.queryAll (e : Elem) (sel : String) : List Elem :=
  subLookup e.sub sel

/-- `element.querySelector(sel)`: the first match in document order. -/
def Elem.queryOne (e : Elem) (sel : String) : Option Elem :=
  (subLookup e.sub sel).head?

/-- The outcome of a document-level query on one selector string. -/
inductive QRes where
  | throws : QRes
  | found : List Elem → QRes

/-- The document: a query engine over selector strings, the href of a
`link[rel="canonical"]` element when one exists (with `none` for a missing
element and `some ""` for a falsy href), and the current location URL. -/
structure Document where
  query : String → QRes
  canonicalHref : Option String
  locationHref : String

/-- `document.querySelector(sel)` for the fixed, syntactically valid
selector literal `link[rel="canonical"]`, which never throws. -/
def docCanonicalHref (doc : Document) : Option String :=
  doc.canonicalHref

/-! ## The selector configuration table (`SELECTORS`)

Apostrophes inside the attribute selectors are written with the escape
`\x27`; the resulting string values are exactly the source literals. -/

namespace SELECTORS

def name : List String :=
  ["h1.text-heading-xlarge",
   ".pv-text-details__left-panel h1",
   ".pv-top-card--list li:first-child",
   "h1[data-anonymize=\x22person-name\x22]",
   ".top-card-layout__title"]

def headline : List String :=
  [".text-body-medium.break-words",
   ".pv-text-details__left-panel .text-body-medium",
   ".pv-top-card--list-bullet li",
   "div[data-anonymize=\x22headline\x22]",
   ".top-card-layout__headline"]

def location : List String :=
  [".pv-text-details__left-panel .text-body-small:last-child",
   ".pv-top-card--list-bullet li:last-child",
   "span[data-anonymize=\x22location\x22]",
   ".top-card-layout__first-subline"]

def about : List String :=
  ["#about ~ .display-flex .pv-shared-text-with-see-more span.visually-hidden",
   "#about ~ .display-flex .inline-show-more-text",
   ".pv-about__summary-text",
   "section[data-section=\x22summary\x22] .pv-shared-text-with-see-more",
   "#about + div span[aria-hidden=\x27true\x27]"]

def experienceSection : List String :=
  ["#experience ~ .pvs-list__outer-container",
   "#experience + div + div",
   "section[data-section=\x22experience\x22]",
   ".experience-section"]

def experienceItem : List String :=
  [".pvs-entity", ".pv-entity__position-group", ".experience-item"]

def educationSection : List String :=
  ["#education ~ .pvs-list__outer-container",
   "#education + div + div",
   "section[data-section=\x22education\x22]",
   ".education-section"]

def educationItem : List String :=
  [".pvs-entity", ".pv-education-entity", ".education-item"]

def skillsSection : List String :=
  ["#skills ~ .pvs-list__outer-container",
   "section[data-section=\x22skills\x22]",
   ".pv-skill-categories-section"]

def skillItem : List String :=
  [".pvs-entity .mr1 span[aria-hidden=\x27true\x27]",
   ".pv-skill-category-entity__name",
   ".skill-item"]

def profileImage : List String :=
  [".pv-top-card-profile-picture__image",
   ".pv-top-card__photo",
   ".profile-photo-edit__preview",
   "img.pv-top-card-profile-picture__image--show"]

end SELECTORS

/-! ## The Selector Resolution Layer -/

/-- `querySelector(selectors)` from the source: try the selectors in order;
an invalid selector (a thrown query) is skipped; return the first element of
the first selector with at least one match, `null` otherwise. -/
def querySelector (doc : Document) : List String → Option Elem
  | [] => none
  | sel :: rest =>
    match doc.query sel with
    | QRes.throws => querySelector doc rest
    | QRes.found [] => querySelector doc rest
    | QRes.found (e :: _) => some e

/-- `querySelectorAll(selectors)` from the source: try the selectors in
order; an invalid selector is skipped; return all matches of the first
selector with at least one match, `[]` otherwise. -/
def querySelectorAll (doc : Document) : List String → List Elem
  | [] => []
  | sel :: rest =>
    match doc.query sel with
    | QRes.throws => querySelectorAll doc rest
    | QRes.found [] => querySelectorAll doc rest
    | QRes.found (e :: es) => e :: es

/-- `getTextContent` from the source:
`(element.textContent || "").trim().replace(/\s+/g, " ")`, the empty string
on a null element. -/
def getTextContent (element : Option Elem) : String :=
  match element with
  | none => ""
  | some el => normText (el.textContent.getD "")

/-- `extractProfileUrl` from the source: prefer a truthy canonical-link href,
fall back to the location URL; strip the query string and one trailing
slash. -/
def extractProfileUrl (doc : Document) : String :=
  match docCanonicalHref doc with
  | some h => if h ≠ "" then canonicalizeHref h else canonicalizeHref doc.locationHref
  | none => canonicalizeHref doc.locationHref

/-! ## `parseDegree` — the regexes `/^(.+?),\s*(.+?)$/` and
`/^(.+?)\s+in\s+(.+?)$/i` -/

/-- The anchored `"<degree>, <field>"` pattern.  The second group is lazy but
is followed by the end anchor, so the only viable capture is the whole
remainder, which must be nonempty and free of line terminators. -/
def commaMatchC (l : List Char) : Option (List Char × List Char) :=
  firstSome (fun g1p =>
    match g1p.2 with
    | c :: rest =>
      if c = ',' then
        firstSome (fun l2 =>
          if l2.isEmpty then none
          else if l2.all isDotChar then some (g1p.1, l2) else none)
          (greedyStarS isJsWs rest)
      else none
    | [] => none)
    (lazyPlusC isDotChar l)

/-- The anchored `"<degree> in <field>"` pattern, case-insensitive on the
literal `in`. -/
def inMatchC (l : List Char) : Option (List Char × List Char) :=
  firstSome (fun g1p =>
    firstSome (fun l2 =>
      match matchLiteralCI "in".data l2 with
      | none => none
      | some l3 =>
        firstSome (fun l4 =>
          if l4.isEmpty then none
          else if l4.all isDotChar then some (g1p.1, l4) else none)
          (greedyPlusS isJsWs l3))
      (greedyPlusS isJsWs g1p.2))
    (lazyPlusC isDotChar l)

/-- `parseDegree` from the source: `{}` on falsy input, the comma pattern
first, then the `in` pattern, otherwise the whole text as the degree. -/
def parseDegree (text : String) : Option String × Option String :=
  if text = "" then (none, none)
  else
    match commaMatchC text.data with
    | some (g1, g2) => (some (jsTrim (String.mk g1)), some (jsTrim (String.mk g2)))
    | none =>
      match inMatchC text.data with
      | some (g1, g2) => (some (jsTrim (String.mk g1)), some (jsTrim (String.mk g2)))
      | none => (some text, none)

/-! ## Output data model (`types/index.ts`)

Optional TS fields are `Option String`; the `end` field is renamed `end_`
because `end` is a Lean keyword. -/

structure LinkedInExperienceEntry where
  title : Option String := none
  company : Option String := none
  start : Option String := none
  end_ : Option String := none
  description : Option String := none
  location : Option String := none
deriving DecidableEq, Repr

structure LinkedInEducationEntry where
  school : Option String := none
  degree : Option String := none
  field : Option String := none
  start : Option String := none
  end_ : Option String := none
deriving DecidableEq, Repr

structure LinkedInProfileSnapshot where
  name : Option String := none
  first_name : Option String := none
  last_name : Option String := none
  headline : Option String := none
  location : Option String := none
  job_title : Option String := none
  company_name : Option String := none
  about : Option String := none
  skills : List String := []
  experience : List LinkedInExperienceEntry := []
  education : List LinkedInEducationEntry := []
  profile_image_url : Option String := none
deriving DecidableEq, Repr

/-- The value returned by `extractLinkedInProfile`. -/
structure ExtractResult where
  profile : LinkedInProfileSnapshot
  profileUrl : String
  rawText : String
deriving DecidableEq, Repr

/-- The result of `extractName`. -/
structure NameParts where
  fullName : String
  firstName : Option String := none
  lastName : Option String := none
deriving DecidableEq, Repr

/-! ## Field extractors -/

/-- `extractName` from the source: resolve the name selectors, default to the
sentinel `"Unknown"`, split on single spaces into first name and remaining
last name only when at least two tokens exist. -/
def extractName (doc : Document) : NameParts :=
  let nameElement := querySelector doc SELECTORS.name
  let fullName := jsOr (getTextContent nameElement) "Unknown"
  let parts := splitOnChar ' ' fullName.data
  if 2 ≤ parts.length then
    { fullName, firstName := some (String.mk parts.headI),
      lastName := some (String.mk (joinSep ' ' (parts.drop 1))) }
  else
    { fullName }

/-- `extractHeadline` from the source. -/
def extractHeadline (doc : Document) : String :=
  getTextContent (querySelector doc SELECTORS.headline)

/-- `extractLocation` from the source. -/
def extractLocation (doc : Document) : String :=
  getTextContent (querySelector doc SELECTORS.location)

/-- `extractAbout` from the source. -/
def extractAbout (doc : Document) : String :=
  getTextContent (querySelector doc SELECTORS.about)

/-- The item-list selector `".pvs-entity, li.artdeco-list__item"` used inside
the experience and education sections. -/
def sectionItemsSel : String :=
  ".pvs-entity, li.artdeco-list__item"

/-- The concatenated title selector of an experience item. -/
def expTitleSel : String :=
  ".mr1.hoverable-link-text span[aria-hidden=\x27true\x27], .pv-entity__summary-info h3, .t-bold span[aria-hidden=\x27true\x27]"

/-- The concatenated company selector of an experience item. -/
def expCompanySel : String :=
  ".t-14.t-normal span[aria-hidden=\x27true\x27], .pv-entity__secondary-title, .t-normal span[aria-hidden=\x27true\x27]"

/-- The concatenated date selector of an experience item. -/
def expDateSel : String :=
  ".pvs-entity__caption-wrapper span[aria-hidden=\x27true\x27], .pv-entity__date-range span:nth-child(2), .t-black--light span[aria-hidden=\x27true\x27]"

/-- The concatenated description selector of an experience item. -/
def expDescSel : String :=
  ".pv-shared-text-with-see-more span[aria-hidden=\x27true\x27], .pv-entity__description, .inline-show-more-text"

/-- The location selector of an experience item. -/
def expLocSel : String :=
  ".t-14.t-normal.t-black--light span[aria-hidden=\x27true\x27]"

/-- The body of the `items.forEach` loop in `extractExperience`: extract
title, company (truncated at the first middle dot and trimmed), date range,
description and location, and keep the item only when title or company is
nonempty.  The modelled element queries are total, so the per-item
`try`/`catch` of the source has no effect here. -/
def extractExperienceItem (item : Elem) : Option LinkedInExperienceEntry :=
  let title := getTextContent (item.queryOne expTitleSel)
  let company :=
    jsTrim (String.mk ((getTextContent (item.queryOne expCompanySel)).data.takeWhile fun c => c ≠ '·'))
  let dateText := getTextContent (item.queryOne expDateSel)
  let se := parseDateRange dateText
  let description := getTextContent (item.queryOne expDescSel)
  let location := getTextContent (item.queryOne expLocSel)
  if title ≠ "" ∨ company ≠ "" then
    some { title := jsUndef title, company := jsUndef company,
           start := se.1, end_ := se.2,
           description := jsUndef description, location := jsUndef location }
  else
    none

/-- `extractExperience` from the source: resolve the experience section (empty
list when absent), enumerate its items, keep the usable ones, truncate to the
first 10. -/
def extractExperience (doc : Document) : List LinkedInExperienceEntry :=
  match querySelector doc SELECTORS.experienceSection with
  | none => []
  | some sec =>
    ((sec.queryAll sectionItemsSel).filterMap extractExperienceItem).take 10

/-- The concatenated school selector of an education item. -/
def eduSchoolSel : String :=
  ".mr1.hoverable-link-text span[aria-hidden=\x27true\x27], .pv-entity__school-name, .t-bold span[aria-hidden=\x27true\x27]"

/-- The concatenated degree selector of an education item. -/
def eduDegreeSel : String :=
  ".t-14.t-normal span[aria-hidden=\x27true\x27], .pv-entity__degree-name, .t-normal span[aria-hidden=\x27true\x27]"

/-- The concatenated date selector of an education item. -/
def eduDateSel : String :=
  ".pvs-entity__caption-wrapper span[aria-hidden=\x27true\x27], .pv-entity__dates span:nth-child(2)"

/-- The body of the `items.forEach` loop in `extractEducation`: the school is
required for the entry to be kept; degree and field come from `parseDegree`
unmodified. -/
def extractEducationItem (item : Elem) : Option LinkedInEducationEntry :=
  let school := getTextContent (item.queryOne eduSchoolSel)
  let degreeText := getTextContent (item.queryOne eduDegreeSel)
  let df := parseDegree degreeText
  let dateText := getTextContent (item.queryOne eduDateSel)
  let se := parseDateRange dateText
  if school ≠ "" then
    some { school := some school, degree := df.1, field := df.2,
           start := se.1, end_ := se.2 }
  else
    none

/-- `extractEducation` from the source: as for experience, truncated to 5. -/
def extractEducation (doc : Document) : List LinkedInEducationEntry :=
  match querySelector doc SELECTORS.educationSection with
  | none => []
  | some sec =>
    ((sec.queryAll sectionItemsSel).filterMap extractEducationItem).take 5

/-- The concatenated skill-item selector used inside the skills section. -/
def skillItemsSel : String :=
  ".pvs-entity .mr1 span[aria-hidden=\x27true\x27], .pv-skill-category-entity__name-text"

/-- The `items.forEach` loop of `extractSkills`: push each nonempty skill
text whose lower-cased form has not been seen, remembering the lower-cased
forms. -/
def skillsLoop : List Elem → List String → List String
  | [], _ => []
  | item :: rest, seen =>
    let skill := getTextContent (some item)
    if skill ≠ "" ∧ ¬ lowerStr skill ∈ seen then
      skill :: skillsLoop rest (lowerStr skill :: seen)
    else
      skillsLoop rest seen

/-- `extractSkills` from the source: resolve the skills section (empty list
when absent), deduplicate case-insensitively keeping first-seen casing and
order, truncate to 20. -/
def extractSkills (doc : Document) : List String :=
  match querySelector doc SELECTORS.skillsSection with
  | none => []
  | some sec =>
    (skillsLoop (sec.queryAll skillItemsSel) []).take 20

/-- `extractProfileImage` from the source: a truthy `src` not containing the
ghost-image marker, absent otherwise. -/
def extractProfileImage (doc : Document) : Option String :=
  match querySelector doc SELECTORS.profileImage with
  | none => none
  | some img =>
    match img.src with
    | some s => if s ≠ "" ∧ hasSubstr "ghost".data s.data = false then some s else none
    | none => none

/-! ## Raw-text generation and the profile assembler -/

/-- The experience branch of `generateRawText`: build up one line from the
truthy fields of an entry. -/
def expRawText (exp : LinkedInExperienceEntry) : String :=
  let t0 := if truthyOpt exp.title then exp.title.getD "" else ""
  let t1 := if truthyOpt exp.company then t0 ++ " at " ++ exp.company.getD "" else t0
  let t2 := if truthyOpt exp.start then t1 ++ " (" ++ exp.start.getD "" else t1
  let t3 := if truthyOpt exp.end_ then t2 ++ " - " ++ exp.end_.getD "" ++ ")" else t2
  if truthyOpt exp.description then t3 ++ ": " ++ exp.description.getD "" else t3

/-- The education branch of `generateRawText`. -/
def eduRawText (edu : LinkedInEducationEntry) : String :=
  let t0 := if truthyOpt edu.degree then edu.degree.getD "" else ""
  let t1 := if truthyOpt edu.field then t0 ++ " in " ++ edu.field.getD "" else t0
  if truthyOpt edu.school then t1 ++ " from " ++ edu.school.getD "" else t1

/-- `generateRawText` from the source: the newline-joined sections in the
fixed order name, headline, location, about, skills, experience entries,
education entries, each included only when truthy/nonempty. -/
def generateRawText (profile : LinkedInProfileSnapshot) : String :=
  let s1 := if truthyOpt profile.name then [profile.name.getD ""] else []
  let s2 := if truthyOpt profile.headline then [profile.headline.getD ""] else []
  let s3 := if truthyOpt profile.location then [profile.location.getD ""] else []
  let s4 := if truthyOpt profile.about then ["About: " ++ profile.about.getD ""] else []
  let s5 :=
    if profile.skills.isEmpty then []
    else ["Skills: " ++ String.intercalate ", " profile.skills]
  let s6 := (profile.experience.map expRawText).filter fun t => !t.isEmpty
  let s7 := (profile.education.map eduRawText).filter fun t => !t.isEmpty
  String.intercalate "\n" (s1 ++ s2 ++ s3 ++ s4 ++ s5 ++ s6 ++ s7)

/-- `extractLinkedInProfile` from the source: invoke every field extractor,
derive `job_title` and `company_name` from the headline parse with the first
experience entry as fallback, and assemble the snapshot, the canonical URL
and the raw text. -/
def extractLinkedInProfile (doc : Document) : ExtractResult :=
  let np := extractName doc
  let headline := extractHeadline doc
  let location := extractLocation doc
  let about := extractAbout doc
  let jc := parseHeadlineForJob headline
  let experience := extractExperience doc
  let education := extractEducation doc
  let skills := extractSkills doc
  let profileImageUrl := extractProfileImage doc
  let profileUrl := extractProfileUrl doc
  let profile : LinkedInProfileSnapshot :=
    { name := some np.fullName,
      first_name := np.firstName,
      last_name := np.lastName,
      headline := some headline,
      location := some location,
      job_title := jsOrOpt jc.1 (experience.head?.bind LinkedInExperienceEntry.title),
      company_name := jsOrOpt jc.2 (experience.head?.bind LinkedInExperienceEntry.company),
      about := some about,
      skills := skills,
      experience := experience,
      education := education,
      profile_image_url := profileImageUrl }
  { profile := profile, profileUrl := profileUrl, rawText := generateRawText profile }

/-! ## Shared concrete documents for witnesses and counterexamples -/

/-- A plain text-carrying element. -/
def textElem (t : String) : Elem :=
  .mk (some t) none none []

/-- A document on which every query returns zero matches. -/
def emptyDoc : Document :=
  { query := fun _ => QRes.found []
    canonicalHref := none
    locationHref := "https://x.example/p/" }

/-- An experience item whose company cell reads `"Acme · Full-time"` and
whose other cells are absent. -/
def demoExpItem : Elem :=
  .mk none none none [(expCompanySel, [textElem "Acme · Full-time"])]

/-- An experience section containing exactly `demoExpItem`. -/
def demoExpSection : Elem :=
  .mk none none none [(sectionItemsSel, [demoExpItem])]

/-- A skills section with a case-insensitive duplicate and an empty text. -/
def demoSkillsSection : Elem :=
  .mk none none none
    [(skillItemsSel, [textElem "Python", textElem "python", textElem "SQL", textElem ""])]

/-- A document with an unparseable headline, one experience entry carrying
only a company, and three skill items. -/
def demoDoc : Document :=
  { query := fun s =>
      if s = ".text-body-medium.break-words" then QRes.found [textElem "Passionate builder"]
      else if s = "#experience ~ .pvs-list__outer-container" then QRes.found [demoExpSection]
      else if s = "#skills ~ .pvs-list__outer-container" then QRes.found [demoSkillsSection]
      else QRes.found []
    canonicalHref := some "https://www.linkedin.com/in/jane-doe/?trk=abc"
    locationHref := "https://www.linkedin.com/in/jane-doe/" }

/-- A document whose query engine throws on the selector `"bad"` and matches
two elements on the selector `"good"`. -/
def throwingDoc : Document :=
  { query := fun s =>
      if s = "bad" then QRes.throws
      else if s = "good" then QRes.found [textElem "one", textElem "two"]
      else QRes.found []
    canonicalHref := none
    locationHref := "" }

/-! ## Resolver lemmas -/

/-- A query outcome that contributes no element: a thrown (invalid) selector
or zero matches. -/
def noMatch (q : QRes) : Prop :=
  q = QRes.throws ∨ q = QRes.found []

theorem querySelector_eq_none (doc : Document) (sels : List String)
    (h : ∀ s ∈ sels, noMatch (doc.query s)) : querySelector doc sels = none := by
  induction sels with
  | nil => rfl
  | cons s rest ih =>
    have hs := h s (by simp)
    have hrest : querySelector doc rest = none :=
      ih fun t ht => h t (by simp [ht])
    rcases hs with hs | hs <;> simp [querySelector, hs, hrest]

theorem querySelectorAll_eq_nil (doc : Document) (sels : List String)
    (h : ∀ s ∈ sels, noMatch (doc.query s)) : querySelectorAll doc sels = [] := by
  induction sels with
  | nil => rfl
  | cons s rest ih =>
    have hs := h s (by simp)
    have hrest : querySelectorAll doc rest = [] :=
      ih fun t ht => h t (by simp [ht])
    rcases hs with hs | hs <;> simp [querySelectorAll, hs, hrest]

theorem querySelectorAll_append_first (doc : Document) (pre : List String)
    (sel : String) (rest : List String) (els : List Elem)
    (hpre : ∀ t ∈ pre, noMatch (doc.query t))
    (hsel : doc.query sel = QRes.found els) (hne : els ≠ []) :
    querySelectorAll doc (pre ++ sel :: rest) = els := by
  induction pre with
  | nil =>
    cases els with
    | nil => exact absurd rfl hne
    | cons e es => simp [querySelectorAll, hsel]
  | cons t ts ih =>
    have ht := hpre t (by simp)
    have hrec := ih fun u hu => hpre u (by simp [hu])
    rcases ht with ht | ht <;> simp [querySelectorAll, ht, hrec]

/-- C5. The all-matches resolver skips throwing (invalid) and zero-match
selectors, returns exactly the matches of the first selector with at least
one match without merging later selectors, and returns the empty list without
failing when no selector matches. -/
theorem querySelectorAll_first_success (doc : Document) (sels : List String) :
    ((∀ s ∈ sels, noMatch (doc.query s)) → querySelectorAll doc sels = []) ∧
    (∀ pre sel rest els, sels = pre ++ sel :: rest →
      (∀ t ∈ pre, noMatch (doc.query t)) →
      doc.query sel = QRes.found els → els ≠ [] →
      querySelectorAll doc sels = els) := by
  refine ⟨querySelectorAll_eq_nil doc sels, ?_⟩
  rintro pre sel rest els rfl hpre hsel hne
  exact querySelectorAll_append_first doc pre sel rest els hpre hsel hne

/-- Witness for C5 at a concrete document: the first selector throws, the
second yields two matches, and exactly those two are returned. -/
theorem querySelectorAll_first_success_witness :
    querySelectorAll throwingDoc ["bad", "good", "later"] = [textElem "one", textElem "two"] := by
  refine (querySelectorAll_first_success throwingDoc _).2 ["bad"] "good" ["later"]
    [textElem "one", textElem "two"] rfl ?_ rfl (by simp)
  intro t ht
  simp only [List.mem_singleton] at ht
  subst ht
  exact Or.inl rfl

/-- C1. On a document where no selector matches anything, extraction returns
(without any error path) the sentinel snapshot: name `"Unknown"`, first and
last name absent, headline/location/about empty, derived job fields absent,
all lists empty, no image. -/
theorem extract_unmatched_document_sentinel (doc : Document)
    (h : ∀ s, doc.query s = QRes.found []) :
    (extractLinkedInProfile doc).profile.name = some "Unknown" ∧
    (extractLinkedInProfile doc).profile.first_name = none ∧
    (extractLinkedInProfile doc).profile.last_name = none ∧
    (extractLinkedInProfile doc).profile.headline = some "" ∧
    (extractLinkedInProfile doc).profile.location = some "" ∧
    (extractLinkedInProfile doc).profile.about = some "" ∧
    (extractLinkedInProfile doc).profile.job_title = none ∧
    (extractLinkedInProfile doc).profile.company_name = none ∧
    (extractLinkedInProfile doc).profile.skills = [] ∧
    (extractLinkedInProfile doc).profile.experience = [] ∧
    (extractLinkedInProfile doc).profile.education = [] ∧
    (extractLinkedInProfile doc).profile.profile_image_url = none := by
  have hq : ∀ sels, querySelector doc sels = none := fun sels =>
    querySelector_eq_none doc sels fun s _ => Or.inr (h s)
  have hname : extractName doc = { fullName := "Unknown" } := by
    simp only [extractName, hq, getTextContent, jsOr, if_pos rfl]
    decide
  have hheadline : extractHeadline doc = "" := by simp [extractHeadline, hq, getTextContent]
  have hlocation : extractLocation doc = "" := by simp [extractLocation, hq, getTextContent]
  have habout : extractAbout doc = "" := by simp [extractAbout, hq, getTextContent]
  have hexp : extractExperience doc = [] := by simp [extractExperience, hq]
  have hedu : extractEducation doc = [] := by simp [extractEducation, hq]
  have hskills : extractSkills doc = [] := by simp [extractSkills, hq]
  have himg : extractProfileImage doc = none := by simp [extractProfileImage, hq]
  simp [extractLinkedInProfile, hname, hheadline, hlocation, habout, hexp, hedu,
        hskills, himg, parseHeadlineForJob, jsOrOpt]

/-- Witness for C1 at the concrete zero-match document. -/
theorem extract_unmatched_document_sentinel_witness :
    (∀ s, emptyDoc.query s = QRes.found []) ∧
    (extractLinkedInProfile emptyDoc).profile.name = some "Unknown" := by
  refine ⟨fun s => rfl, (extract_unmatched_document_sentinel emptyDoc fun s => rfl).1⟩

/-! ## Lemmas about the text normaliser and name splitting -/

theorem head?_dropWhile_ws (p : Char → Bool) :
    ∀ (l : List Char) (c : Char), (l.dropWhile p).head? = some c → p c = false := by
  intro l
  induction l with
  | nil => intro c hc; simp at hc
  | cons a as ih =>
    intro c hc
    by_cases hpa : p a
    · rw [List.dropWhile_cons_of_pos hpa] at hc
      exact ih c hc
    · rw [List.dropWhile_cons_of_neg hpa] at hc
      simp only [List.head?_cons, Option.some.injEq] at hc
      subst hc
      exact Bool.of_not_eq_true hpa

theorem getLast?_dropWhile_ne_nil (p : Char → Bool) :
    ∀ (l : List Char), l.dropWhile p ≠ [] → (l.dropWhile p).getLast? = l.getLast? := by
  intro l
  induction l with
  | nil => intro hne; simp at hne
  | cons a as ih =>
    intro hne
    by_cases hpa : p a
    · rw [List.dropWhile_cons_of_pos hpa] at hne ⊢
      have has : as ≠ [] := by
        intro h; rw [h] at hne; simp at hne
      rw [ih hne]
      cases as with
      | nil => exact absurd rfl has
      | cons b bs => rw [List.getLast?_cons_cons]
    · rw [List.dropWhile_cons_of_neg hpa]

theorem trimChars_head (l : List Char) (c : Char)
    (h : (trimChars l).head? = some c) : isJsWs c = false := by
  unfold trimChars at h
  rw [List.head?_reverse] at h
  have hne : ((l.dropWhile isJsWs).reverse.dropWhile isJsWs) ≠ [] := by
    intro hnil; rw [hnil] at h; simp at h
  rw [getLast?_dropWhile_ne_nil isJsWs _ hne, List.getLast?_reverse] at h
  exact head?_dropWhile_ws isJsWs _ c h

theorem trimChars_getLast (l : List Char) (c : Char)
    (h : (trimChars l).getLast? = some c) : isJsWs c = false := by
  unfold trimChars at h
  rw [List.getLast?_reverse] at h
  exact head?_dropWhile_ws isJsWs _ c h

theorem collapseWs_ne_nil : ∀ (l : List Char), l ≠ [] → collapseWs l ≠ [] := by
  intro l
  induction l with
  | nil => intro h; exact absurd rfl h
  | cons a as ih =>
    intro _
    cases as with
    | nil => simp [collapseWs]
    | cons b bs =>
      by_cases hab : isJsWs a && isJsWs b
      · simpa [collapseWs, hab] using ih (by simp)
      · simp [collapseWs, hab]

theorem collapseWs_cons_not_ws (c : Char) (rest : List Char) (hc : isJsWs c = false) :
    collapseWs (c :: rest) = c :: collapseWs rest := by
  cases rest with
  | nil => simp [collapseWs, hc]
  | cons b bs => simp [collapseWs, hc]

theorem collapseWs_getLast (l : List Char) (c : Char)
    (hl : l.getLast? = some c) (hc : isJsWs c = false) :
    (collapseWs l).getLast? = some c := by
  induction l with
  | nil => simp at hl
  | cons a as ih =>
    cases as with
    | nil =>
      simp only [List.getLast?_singleton, Option.some.injEq] at hl
      subst hl
      simp [collapseWs, hc]
    | cons b bs =>
      rw [List.getLast?_cons_cons] at hl
      have hrec := ih hl
      have hne : collapseWs (b :: bs) ≠ [] := collapseWs_ne_nil _ (by simp)
      by_cases hab : isJsWs a && isJsWs b
      · simpa [collapseWs, hab] using hrec
      · simp only [collapseWs, hab, Bool.false_eq_true, if_false]
        cases hcb : collapseWs (b :: bs) with
        | nil => exact absurd hcb hne
        | cons x xs =>
          rw [hcb] at hrec
          rw [List.getLast?_cons_cons, ← hcb, hcb, ← hrec]

theorem splitOnChar_cons (sep c : Char) (rest : List Char) :
    splitOnChar sep (c :: rest) =
      if c = sep then [] :: splitOnChar sep rest
      else
        match splitOnChar sep rest with
        | [] => [[c]]
        | p :: ps => (c :: p) :: ps := rfl

theorem splitOnChar_ne_nil (sep : Char) : ∀ (l : List Char), splitOnChar sep l ≠ [] := by
  intro l
  induction l with
  | nil => simp [splitOnChar]
  | cons c rest ih =>
    by_cases hc : c = sep
    · simp [splitOnChar, hc]
    · cases hr : splitOnChar sep rest with
      | nil => exact absurd hr ih
      | cons p ps => simp [splitOnChar, hc, hr]

theorem splitOnChar_cons_ne (sep c : Char) (rest : List Char) (hc : c ≠ sep) :
    ∃ q qs, splitOnChar sep (c :: rest) = (c :: q) :: qs := by
  cases hr : splitOnChar sep rest with
  | nil => exact absurd hr (splitOnChar_ne_nil sep rest)
  | cons p ps =>
    refine ⟨p, ps, ?_⟩
    rw [splitOnChar_cons, if_neg hc, hr]

theorem splitOnChar_getLast_ne_nil (sep : Char) :
    ∀ (l : List Char), l ≠ [] → l.getLast? ≠ some sep →
      ∀ q, (splitOnChar sep l).getLast? = some q → q ≠ [] := by
  intro l
  induction l with
  | nil => intro h; exact absurd rfl h
  | cons c rest ih =>
    intro _ hlast q hq
    cases rest with
    | nil =>
      have hc : c ≠ sep := by
        intro h; exact hlast (by simp [h])
      have hsplit : splitOnChar sep [c] = [[c]] := by
        rw [splitOnChar_cons, if_neg hc]
        rfl
      rw [hsplit] at hq
      simp only [List.getLast?_singleton, Option.some.injEq] at hq
      subst hq
      simp
    | cons b bs =>
      have hlast2 : (b :: bs).getLast? ≠ some sep := by
        rw [List.getLast?_cons_cons] at hlast
        exact hlast
      have hrec := ih (by simp) hlast2
      by_cases hc : c = sep
      · subst hc
        have hsp : splitOnChar c (c :: b :: bs) = [] :: splitOnChar c (b :: bs) := by
          rw [splitOnChar_cons, if_pos rfl]
        rw [hsp] at hq
        cases hr : splitOnChar c (b :: bs) with
        | nil => exact absurd hr (splitOnChar_ne_nil c (b :: bs))
        | cons p ps =>
          rw [hr, List.getLast?_cons_cons] at hq
          exact hrec q (by rw [hr]; exact hq)
      · cases hr : splitOnChar sep (b :: bs) with
        | nil => exact absurd hr (splitOnChar_ne_nil sep (b :: bs))
        | cons p ps =>
          have hsp : splitOnChar sep (c :: b :: bs) = (c :: p) :: ps := by
            rw [splitOnChar_cons, if_neg hc, hr]
          rw [hsp] at hq
          cases ps with
          | nil =>
            simp only [List.getLast?_singleton, Option.some.injEq] at hq
            subst hq
            simp
          | cons p2 ps2 =>
            rw [List.getLast?_cons_cons] at hq
            refine hrec q ?_
            rw [hr, List.getLast?_cons_cons]
            exact hq

theorem normText_head_not_ws (x : String) (c : Char) (rest : List Char)
    (h : (normText x).data = c :: rest) : isJsWs c = false := by
  unfold normText at h
  cases hL : trimChars x.data with
  | nil => rw [hL] at h; simp [collapseWs] at h
  | cons c0 L =>
    have hc0 : isJsWs c0 = false := trimChars_head x.data c0 (by rw [hL]; rfl)
    rw [hL, collapseWs_cons_not_ws c0 L hc0] at h
    have : c = c0 := by
      have := congrArg List.head? h
      simp at this
      exact this.symm
    rw [this]
    exact hc0

theorem normText_getLast_not_ws (x : String) (c : Char)
    (h : (normText x).data.getLast? = some c) : isJsWs c = false := by
  unfold normText at h
  cases hL : trimChars x.data with
  | nil => rw [hL] at h; simp [collapseWs] at h
  | cons c0 L =>
    obtain ⟨cl, hcl⟩ : ∃ cl, (c0 :: L).getLast? = some cl := by
      cases hgl : (c0 :: L).getLast? with
      | none => simp at hgl
      | some cl => exact ⟨cl, rfl⟩
    have hclw : isJsWs cl = false := trimChars_getLast x.data cl (by rw [hL]; exact hcl)
    have := collapseWs_getLast (c0 :: L) cl hcl hclw
    rw [hL] at h
    rw [this] at h
    cases h
    exact hclw

theorem jsUndef_ne_some_empty (t : String) : jsUndef t ≠ some "" := by
  unfold jsUndef
  by_cases h : t = "" <;> simp [h]

theorem jsOrOpt_ne_some_empty (a b : Option String) (hb : b ≠ some "") :
    jsOrOpt a b ≠ some "" := by
  unfold jsOrOpt
  cases a with
  | none => exact hb
  | some s =>
    by_cases hs : s = ""
    · simp only [hs, if_pos rfl]
      exact hb
    · simp [hs]

theorem string_mk_ne_empty (l : List Char) (h : l ≠ []) : String.mk l ≠ "" := by
  intro he
  apply h
  have : (String.mk l).data = ("" : String).data := by rw [he]
  simpa using this

theorem extractName_firstName_ne_empty (doc : Document) (s : String)
    (h : (extractName doc).firstName = some s) : s ≠ "" := by
  by_cases hg : getTextContent (querySelector doc SELECTORS.name) = ""
  · have hfull : extractName doc = { fullName := "Unknown" } := by
      simp only [extractName, hg, jsOr, if_pos rfl]
      decide
    rw [hfull] at h
    simp at h
  · cases hqs : querySelector doc SELECTORS.name with
    | none => exact absurd (by simp [getTextContent, hqs]) hg
    | some e =>
      have hx : getTextContent (querySelector doc SELECTORS.name) =
          normText (e.textContent.getD "") := by rw [hqs]; rfl
      set x := e.textContent.getD "" with hxdef
      rw [hx] at hg
      have hjs : jsOr (getTextContent (querySelector doc SELECTORS.name)) "Unknown" =
          normText x := by rw [hx, jsOr, if_neg hg]
      cases hd : (normText x).data with
      | nil =>
        exact absurd (by apply String.ext; simpa using hd) hg
      | cons c rest =>
        have hc : isJsWs c = false := normText_head_not_ws x c rest hd
        have hcsp : c ≠ ' ' := by
          intro hsp; rw [hsp] at hc; simp [isJsWs] at hc
        obtain ⟨q, qs, hsplit⟩ := splitOnChar_cons_ne ' ' c rest hcsp
        simp only [extractName, hjs, hd, hsplit] at h
        by_cases hlen : 2 ≤ ((c :: q) :: qs).length
        · rw [if_pos hlen] at h
          simp only [NameParts.firstName, Option.some.injEq] at h
          subst h
          exact string_mk_ne_empty _ (by simp)
        · rw [if_neg hlen] at h
          simp at h

theorem getLast?_of_drop_one {α : Type} (ll : List α) (p : α) (h : ll.drop 1 = [p]) :
    ll.getLast? = some p := by
  cases ll with
  | nil => simp at h
  | cons a as =>
    simp only [List.drop_one, List.tail_cons] at h
    subst h
    rfl

theorem extractName_lastName_ne_empty (doc : Document) (s : String)
    (h : (extractName doc).lastName = some s) : s ≠ "" := by
  by_cases hg : getTextContent (querySelector doc SELECTORS.name) = ""
  · have hfull : extractName doc = { fullName := "Unknown" } := by
      simp only [extractName, hg, jsOr, if_pos rfl]
      decide
    rw [hfull] at h
    simp at h
  · cases hqs : querySelector doc SELECTORS.name with
    | none => exact absurd (by simp [getTextContent, hqs]) hg
    | some e =>
      have hx : getTextContent (querySelector doc SELECTORS.name) =
          normText (e.textContent.getD "") := by rw [hqs]; rfl
      set x := e.textContent.getD "" with hxdef
      rw [hx] at hg
      have hjs : jsOr (getTextContent (querySelector doc SELECTORS.name)) "Unknown" =
          normText x := by rw [hx, jsOr, if_neg hg]
      cases hd : (normText x).data with
      | nil =>
        exact absurd (by apply String.ext; simpa using hd) hg
      | cons c rest =>
        simp only [extractName, hjs, hd] at h
        by_cases hlen : 2 ≤ (splitOnChar ' ' (c :: rest)).length
        · rw [if_pos hlen] at h
          simp only [NameParts.lastName, Option.some.injEq] at h
          subst h
          refine string_mk_ne_empty _ ?_
          cases htl : (splitOnChar ' ' (c :: rest)).drop 1 with
          | nil =>
            have := congrArg List.length htl
            simp at this
            omega
          | cons p ps =>
            cases ps with
            | nil =>
              have hp : (splitOnChar ' ' (c :: rest)).getLast? = some p :=
                getLast?_of_drop_one _ p htl
              have hlastc : (c :: rest).getLast? ≠ some ' ' := by
                intro hceq
                obtain ⟨cl, hcl⟩ : ∃ cl, (c :: rest).getLast? = some cl := by
                  cases hgl : (c :: rest).getLast? with
                  | none => simp at hgl
                  | some cl => exact ⟨cl, rfl⟩
                have hclw : isJsWs cl = false :=
                  normText_getLast_not_ws x cl (by rw [hd]; exact hcl)
                rw [hcl] at hceq
                cases hceq
                simp [isJsWs] at hclw
              have hpne : p ≠ [] :=
                splitOnChar_getLast_ne_nil ' ' (c :: rest) (by simp) hlastc p hp
              simpa [joinSep] using hpne
            | cons p2 ps2 =>
              simp [joinSep]
        · rw [if_neg hlen] at h
          simp at h

theorem truthyOpt_jsUndef (s : String) : truthyOpt (jsUndef s) = !(s == "") := by
  by_cases h : s = ""
  · simp [jsUndef, truthyOpt, h]
  · have hb : (s == "") = false := beq_eq_false_iff_ne.mpr h
    have hie : s.isEmpty = false := by
      rw [Bool.eq_false_iff]
      intro hie
      exact h ((String.isEmpty_iff _).mp hie)
    simp [jsUndef, truthyOpt, h, hb, hie]

theorem extractExperienceItem_fields (item : Elem) (e : LinkedInExperienceEntry)
    (h : extractExperienceItem item = some e) :
    e.title ≠ some "" ∧ e.company ≠ some "" ∧
    (truthyOpt e.title || truthyOpt e.company) = true := by
  unfold extractExperienceItem at h
  simp only [] at h
  split at h
  case isTrue hcond =>
    cases h
    refine ⟨jsUndef_ne_some_empty _, jsUndef_ne_some_empty _, ?_⟩
    show (truthyOpt (jsUndef _) || truthyOpt (jsUndef _)) = true
    rw [truthyOpt_jsUndef, truthyOpt_jsUndef]
    rcases hcond with hc | hc
    · rw [beq_eq_false_iff_ne.mpr hc]
      simp
    · rw [beq_eq_false_iff_ne.mpr hc]
      simp
  case isFalse => cases h

theorem extractExperience_fields (doc : Document) (e : LinkedInExperienceEntry)
    (h : e ∈ extractExperience doc) :
    e.title ≠ some "" ∧ e.company ≠ some "" ∧
    (truthyOpt e.title || truthyOpt e.company) = true := by
  unfold extractExperience at h
  cases hqs : querySelector doc SELECTORS.experienceSection with
  | none => rw [hqs] at h; simp at h
  | some sec =>
    rw [hqs] at h
    have h2 := List.mem_of_mem_take h
    obtain ⟨item, _, hf⟩ := List.mem_filterMap.mp h2
    exact extractExperienceItem_fields item e hf

theorem skillsLoop_mem : ∀ (items : List Elem) (seen : List String) (x : String),
    x ∈ skillsLoop items seen → x ≠ "" ∧ lowerStr x ∉ seen := by
  intro items
  induction items with
  | nil => intro seen x hx; simp [skillsLoop] at hx
  | cons item rest ih =>
    intro seen x hx
    unfold skillsLoop at hx
    by_cases hcond : getTextContent (some item) ≠ "" ∧
        ¬ lowerStr (getTextContent (some item)) ∈ seen
    · rw [if_pos hcond] at hx
      rcases List.mem_cons.mp hx with hx | hx
      · subst hx
        exact ⟨hcond.1, hcond.2⟩
      · have := ih _ x hx
        refine ⟨this.1, ?_⟩
        intro hmem
        exact this.2 (List.mem_cons_of_mem _ hmem)
    · rw [if_neg hcond] at hx
      exact ih _ x hx

theorem extractSkills_mem_ne_empty (doc : Document) (x : String)
    (h : x ∈ extractSkills doc) : x ≠ "" := by
  unfold extractSkills at h
  cases hqs : querySelector doc SELECTORS.skillsSection with
  | none => rw [hqs] at h; simp at h
  | some sec =>
    rw [hqs] at h
    exact (skillsLoop_mem _ [] x (List.mem_of_mem_take h)).1

theorem extractProfileImage_ne_some_empty (doc : Document) :
    extractProfileImage doc ≠ some "" := by
  unfold extractProfileImage
  cases querySelector doc SELECTORS.profileImage with
  | none => simp
  | some img =>
    cases hsrc : img.src with
    | none => simp [hsrc]
    | some s0 =>
      simp only [hsrc]
      by_cases hc : s0 ≠ "" ∧ hasSubstr "ghost".data s0.data = false
      · simp only [if_pos hc]
        simp [hc.1]
      · simp [if_neg hc]

/-- `true` when an optional string is absent or present and nonempty. -/
def nonEmptyOpt (o : Option String) : Bool :=
  match o with
  | none => true
  | some s => !s.isEmpty

theorem nonEmptyOpt_of (o : Option String) (h : ∀ s, o = some s → s ≠ "") :
    nonEmptyOpt o = true := by
  cases o with
  | none => rfl
  | some s =>
    have hs := h s rfl
    have hie : s.isEmpty = false := by
      rw [Bool.eq_false_iff]
      intro hie
      exact hs ((String.isEmpty_iff _).mp hie)
    simp [nonEmptyOpt, hie]

/-- C2 counterexample: on the zero-match document the assembled snapshot
carries `headline`, `location` and `about` as present empty strings, so the
claimed invariant fails for these fields. -/
theorem snapshot_empty_string_field_cex :
    (extractLinkedInProfile emptyDoc).profile.headline = some "" ∧
    (extractLinkedInProfile emptyDoc).profile.location = some "" ∧
    (extractLinkedInProfile emptyDoc).profile.about = some "" :=
  ⟨rfl, rfl, rfl⟩

/-- C2 amended: every top-level snapshot field other than `headline`,
`location` and `about` is either absent or present with a nonempty value
(`name` is always present and nonempty), while `headline`, `location` and
`about` are always present and may be the empty string. -/
theorem snapshot_fields_nonempty_or_absent_amended (doc : Document) :
    truthyOpt (extractLinkedInProfile doc).profile.name = true ∧
    nonEmptyOpt (extractLinkedInProfile doc).profile.first_name = true ∧
    nonEmptyOpt (extractLinkedInProfile doc).profile.last_name = true ∧
    nonEmptyOpt (extractLinkedInProfile doc).profile.job_title = true ∧
    nonEmptyOpt (extractLinkedInProfile doc).profile.company_name = true ∧
    nonEmptyOpt (extractLinkedInProfile doc).profile.profile_image_url = true ∧
    (extractLinkedInProfile doc).profile.skills.all (fun s => !s.isEmpty) = true ∧
    (extractLinkedInProfile doc).profile.headline = some (extractHeadline doc) ∧
    (extractLinkedInProfile doc).profile.location = some (extractLocation doc) ∧
    (extractLinkedInProfile doc).profile.about = some (extractAbout doc) := by
  refine ⟨?_, ?_, ?_, ?_, ?_, ?_, ?_, rfl, rfl, rfl⟩
  · show truthyOpt (some (extractName doc).fullName) = true
    have : (extractName doc).fullName ≠ "" := by
      by_cases hg : getTextContent (querySelector doc SELECTORS.name) = ""
      · have hfull : extractName doc = { fullName := "Unknown" } := by
          simp only [extractName, hg, jsOr, if_pos rfl]
          decide
        rw [hfull]
        simp
      · unfold extractName
        simp only [jsOr, if_neg hg]
        split <;> simpa using hg
    have hie : (extractName doc).fullName.isEmpty = false := by
      rw [Bool.eq_false_iff]
      intro hie
      exact this ((String.isEmpty_iff _).mp hie)
    simp [truthyOpt, hie]
  · exact nonEmptyOpt_of _ (extractName_firstName_ne_empty doc)
  · exact nonEmptyOpt_of _ (extractName_lastName_ne_empty doc)
  · show nonEmptyOpt (jsOrOpt (parseHeadlineForJob (extractHeadline doc)).1
      ((extractExperience doc).head?.bind LinkedInExperienceEntry.title)) = true
    have hb : (extractExperience doc).head?.bind LinkedInExperienceEntry.title ≠ some "" := by
      cases hl : extractExperience doc with
      | nil => simp
      | cons x xs =>
        show x.title ≠ some ""
        exact (extractExperience_fields doc x (by rw [hl]; exact List.mem_cons_self x xs)).1
    refine nonEmptyOpt_of _ fun s hs hse => ?_
    subst hse
    exact jsOrOpt_ne_some_empty _ _ hb hs
  · show nonEmptyOpt (jsOrOpt (parseHeadlineForJob (extractHeadline doc)).2
      ((extractExperience doc).head?.bind LinkedInExperienceEntry.company)) = true
    have hb : (extractExperience doc).head?.bind LinkedInExperienceEntry.company ≠ some "" := by
      cases hl : extractExperience doc with
      | nil => simp
      | cons x xs =>
        show x.company ≠ some ""
        exact (extractExperience_fields doc x (by rw [hl]; exact List.mem_cons_self x xs)).2.1
    refine nonEmptyOpt_of _ fun s hs hse => ?_
    subst hse
    exact jsOrOpt_ne_some_empty _ _ hb hs
  · exact nonEmptyOpt_of _ fun s hs hse => by
      subst hse
      exact extractProfileImage_ne_some_empty doc hs
  · rw [List.all_eq_true]
    intro s hsmem
    have hne := extractSkills_mem_ne_empty doc s hsmem
    have hie : s.isEmpty = false := by
      rw [Bool.eq_false_iff]
      intro hie
      exact hne ((String.isEmpty_iff _).mp hie)
    simp [hie]

/-- C4. Every entry of the extracted experience list resolved a nonempty
title or a nonempty company, and the list never exceeds 10 entries. -/
theorem extractExperience_identity_and_bound (doc : Document) :
    (extractExperience doc).length ≤ 10 ∧
    (extractExperience doc).all (fun e => truthyOpt e.title || truthyOpt e.company) = true := by
  constructor
  · unfold extractExperience
    cases querySelector doc SELECTORS.experienceSection with
    | none => simp
    | some sec => simp
  · rw [List.all_eq_true]
    intro e he
    exact (extractExperience_fields doc e he).2.2

/-- Witness for C4 at a concrete document with one company-only item. -/
theorem extractExperience_identity_and_bound_witness :
    (extractExperience demoDoc).length ≤ 10 ∧
    (extractExperience demoDoc).all (fun e => truthyOpt e.title || truthyOpt e.company) = true :=
  extractExperience_identity_and_bound demoDoc

/-! ## Skills lemmas (C6) -/

theorem lowerStr_ne_empty (x : String) (h : x ≠ "") : lowerStr x ≠ "" := by
  intro he
  apply h
  apply String.ext
  have : (lowerStr x).data = [] := by rw [he]
  unfold lowerStr at this
  simpa using this

theorem skillsLoop_sublist : ∀ (items : List Elem) (seen : List String),
    (skillsLoop items seen).Sublist (items.map fun it => getTextContent (some it)) := by
  intro items
  induction items with
  | nil => intro seen; simp [skillsLoop]
  | cons item rest ih =>
    intro seen
    unfold skillsLoop
    by_cases hcond : getTextContent (some item) ≠ "" ∧
        ¬ lowerStr (getTextContent (some item)) ∈ seen
    · rw [if_pos hcond]
      exact List.Sublist.cons₂ _ (ih _)
    · rw [if_neg hcond]
      exact List.Sublist.cons _ (ih _)

theorem skillsLoop_pairwise : ∀ (items : List Elem) (seen : List String),
    (skillsLoop items seen).Pairwise fun a b => lowerStr a ≠ lowerStr b := by
  intro items
  induction items with
  | nil => intro seen; simp [skillsLoop]
  | cons item rest ih =>
    intro seen
    unfold skillsLoop
    by_cases hcond : getTextContent (some item) ≠ "" ∧
        ¬ lowerStr (getTextContent (some item)) ∈ seen
    · rw [if_pos hcond]
      refine List.Pairwise.cons ?_ (ih _)
      intro y hy
      have := (skillsLoop_mem _ _ y hy).2
      intro heq
      exact this (by rw [← heq]; exact List.mem_cons_self _ _)
    · rw [if_neg hcond]
      exact ih _

theorem skillsLoop_find : ∀ (items : List Elem) (seen : List String) (x : String),
    x ∈ skillsLoop items seen →
    (items.map fun it => getTextContent (some it)).find?
      (fun y => lowerStr y == lowerStr x) = some x := by
  intro items
  induction items with
  | nil => intro seen x hx; simp [skillsLoop] at hx
  | cons item rest ih =>
    intro seen x hx
    unfold skillsLoop at hx
    by_cases hcond : getTextContent (some item) ≠ "" ∧
        ¬ lowerStr (getTextContent (some item)) ∈ seen
    · rw [if_pos hcond] at hx
      rcases List.mem_cons.mp hx with hx | hx
      · subst hx
        rw [List.map_cons, List.find?_cons_of_pos _ (by simp)]
      · have hnot := (skillsLoop_mem _ _ x hx).2
        have hne : lowerStr (getTextContent (some item)) ≠ lowerStr x := by
          intro heq
          exact hnot (by rw [← heq]; exact List.mem_cons_self _ _)
        rw [List.map_cons, List.find?_cons_of_neg _ (by simpa using hne)]
        exact ih _ x hx
    · rw [if_neg hcond] at hx
      have hxmem := skillsLoop_mem _ _ x hx
      have hne : lowerStr (getTextContent (some item)) ≠ lowerStr x := by
        rcases Decidable.not_and_iff_or_not.mp hcond with hc | hc
        · have ht : getTextContent (some item) = "" := by
            by_contra hne2
            exact hc hne2
          rw [ht]
          intro heq
          exact lowerStr_ne_empty x hxmem.1 (by rw [← heq]; rfl)
        · have hseen : lowerStr (getTextContent (some item)) ∈ seen :=
            Decidable.not_not.mp hc
          intro heq
          exact hxmem.2 (by rw [← heq]; exact hseen)
      rw [List.map_cons, List.find?_cons_of_neg _ (by simpa using hne)]
      exact ih _ x hx

/-- The text of each item of the resolved skills section, in document
order. -/
def skillItemTexts (doc : Document) : List String :=
  match querySelector doc SELECTORS.skillsSection with
  | none => []
  | some sec => (sec.queryAll skillItemsSel).map fun it => getTextContent (some it)

/-- C6. The extracted skills list has at most 20 entries, contains no two
case-insensitively equal entries, is a subsequence of the item texts in
first-seen document order, and each entry is the first item text with its
(case-insensitive) value, hence keeps first-seen casing. -/
theorem extractSkills_dedup_bound_order (doc : Document) :
    (extractSkills doc).length ≤ 20 ∧
    ((extractSkills doc).Pairwise fun a b => lowerStr a ≠ lowerStr b) ∧
    (extractSkills doc).Sublist (skillItemTexts doc) ∧
    ∀ x ∈ extractSkills doc,
      (skillItemTexts doc).find? (fun y => lowerStr y == lowerStr x) = some x := by
  unfold extractSkills skillItemTexts
  cases querySelector doc SELECTORS.skillsSection with
  | none => simp
  | some sec =>
    refine ⟨by simp, ?_, ?_, ?_⟩
    · exact ((skillsLoop_pairwise _ []).sublist (List.take_sublist _ _))
    · exact (List.take_sublist _ _).trans (skillsLoop_sublist _ [])
    · intro x hx
      exact skillsLoop_find _ [] x (List.mem_of_mem_take hx)

/-- Witness for C6 at a concrete document: `"Python"` is kept with its
first-seen casing while the later `"python"` is dropped. -/
theorem extractSkills_dedup_bound_order_witness :
    (skillItemTexts demoDoc).find? (fun y => lowerStr y == lowerStr "Python") = some "Python" :=
  (extractSkills_dedup_bound_order demoDoc).2.2.2 "Python" (by decide)

/-- C3. The date-range parser on the three specified inputs, the absence of
any result when the pattern matches nowhere in the text, and the guarantee
that both components are returned together or not at all. -/
theorem parseDateRange_shape :
    parseDateRange "Jan 2020 - Present" = (some "Jan 2020", some "Present") ∧
    parseDateRange "2018 – 2022" = (some "2018", some "2022") ∧
    parseDateRange "Summer intern" = (none, none) ∧
    (∀ s, dateSearch s.data = none → parseDateRange s = (none, none)) ∧
    (∀ s, parseDateRange s = (none, none) ∨
      ∃ a b, parseDateRange s = (some a, some b)) := by
  refine ⟨by decide, by decide, by decide, ?_, ?_⟩
  · intro s hs
    unfold parseDateRange
    by_cases h : s = ""
    · rw [if_pos h]
    · rw [if_neg h, hs]
  · intro s
    unfold parseDateRange
    by_cases h : s = ""
    · left
      rw [if_pos h]
    · cases hd : dateSearch s.data with
      | none =>
        left
        rw [if_neg h]
      | some g =>
        right
        obtain ⟨g1, g2⟩ := g
        exact ⟨_, _, by rw [if_neg h]⟩

/-- Witness for C3: `"Summer intern"` contains no date-range match, so both
components are absent. -/
theorem parseDateRange_shape_witness :
    parseDateRange "Summer intern" = (none, none) :=
  parseDateRange_shape.2.2.2.1 "Summer intern" (by decide)

/-- C7. The headline job parser on the three specified inputs, and the
pattern priority: the `at` pattern wins when it matches, the pipe pattern is
tried second, and otherwise the whole headline becomes the title with no
company. -/
theorem parseHeadlineForJob_patterns :
    parseHeadlineForJob "Senior Engineer at Acme Corp" = (some "Senior Engineer", some "Acme Corp") ∧
    parseHeadlineForJob "Engineer | Acme | Remote" = (some "Engineer", some "Acme") ∧
    parseHeadlineForJob "Passionate builder" = (some "Passionate builder", none) ∧
    (∀ h t c, atMatch h = some (t, c) → parseHeadlineForJob h = (some t, some c)) ∧
    (∀ h t c, atMatch h = none → pipeMatch h = some (t, c) →
      parseHeadlineForJob h = (some t, some c)) ∧
    (∀ h, h ≠ "" → atMatch h = none → pipeMatch h = none →
      parseHeadlineForJob h = (some h, none)) := by
  refine ⟨by decide, by decide, by decide, ?_, ?_, ?_⟩
  · intro h t c hat
    by_cases hh : h = ""
    · subst hh
      have h0 : atMatch "" = none := by decide
      rw [h0] at hat
      cases hat
    · unfold parseHeadlineForJob
      rw [if_neg hh, hat]
  · intro h t c hat hpipe
    by_cases hh : h = ""
    · subst hh
      have h0 : pipeMatch "" = none := by decide
      rw [h0] at hpipe
      cases hpipe
    · unfold parseHeadlineForJob
      rw [if_neg hh, hat, hpipe]
  · intro h hh hat hpipe
    unfold parseHeadlineForJob
    rw [if_neg hh, hat, hpipe]

/-- Witness for C7: `"Passionate builder"` matches neither pattern and is
returned whole as the title. -/
theorem parseHeadlineForJob_patterns_witness :
    parseHeadlineForJob "Passionate builder" = (some "Passionate builder", none) :=
  parseHeadlineForJob_patterns.2.2.2.2.2 "Passionate builder" (by decide) (by decide) (by decide)

/-! ## Characterisation of the case-insensitive literal matcher (C8, C9) -/

theorem matchLiteralCI_some_iff : ∀ (pat l rest : List Char),
    matchLiteralCI pat l = some rest ↔
    ∃ mid, l = mid ++ rest ∧
      List.Forall₂ (fun a b => a.toLower = b.toLower) mid pat := by
  intro pat
  induction pat with
  | nil =>
    intro l rest
    constructor
    · intro h
      cases h
      exact ⟨[], rfl, List.Forall₂.nil⟩
    · rintro ⟨mid, heq, hf⟩
      cases hf
      simpa [matchLiteralCI] using heq
  | cons p ps ih =>
    intro l rest
    cases l with
    | nil =>
      constructor
      · intro h
        cases h
      · rintro ⟨mid, heq, hf⟩
        cases hf with
        | cons _ _ => simp at heq
    | cons c cs =>
      by_cases hcp : c.toLower = p.toLower
      · rw [show matchLiteralCI (p :: ps) (c :: cs) = matchLiteralCI ps cs from by
          simp [matchLiteralCI, hcp]]
        rw [ih cs rest]
        constructor
        · rintro ⟨mid, heq, hf⟩
          exact ⟨c :: mid, by simp [heq], List.Forall₂.cons hcp hf⟩
        · rintro ⟨mid, heq, hf⟩
          cases hf with
          | cons hm hf2 =>
            rename_i m ms
            simp only [List.cons_append, List.cons.injEq] at heq
            exact ⟨ms, heq.2, hf2⟩
      · rw [show matchLiteralCI (p :: ps) (c :: cs) = none from by
          simp [matchLiteralCI, hcp]]
        constructor
        · intro h
          cases h
        · rintro ⟨mid, heq, hf⟩
          cases hf with
          | cons hm hf2 =>
            rename_i m ms
            simp only [List.cons_append, List.cons.injEq] at heq
            exact absurd (heq.1 ▸ hm) hcp

theorem profilePageAt_iff (l : List Char) :
    profilePageAt l = true ↔
    ∃ mid c suf, l = mid ++ c :: suf ∧
      List.Forall₂ (fun a b => a.toLower = b.toLower) mid linkedinInPat ∧ c ≠ '/' := by
  unfold profilePageAt
  cases hm : matchLiteralCI linkedinInPat l with
  | none =>
    simp only [Bool.false_eq_true, false_iff]
    rintro ⟨mid, c, suf, heq, hf, hc⟩
    have : matchLiteralCI linkedinInPat l = some (c :: suf) :=
      (matchLiteralCI_some_iff linkedinInPat l (c :: suf)).mpr ⟨mid, heq, hf⟩
    rw [hm] at this
    cases this
  | some rest =>
    cases rest with
    | nil =>
      simp only [Bool.false_eq_true, false_iff]
      rintro ⟨mid, c, suf, heq, hf, hc⟩
      have : matchLiteralCI linkedinInPat l = some (c :: suf) :=
        (matchLiteralCI_some_iff linkedinInPat l (c :: suf)).mpr ⟨mid, heq, hf⟩
      rw [hm] at this
      cases this
    | cons c suf =>
      simp only [decide_eq_true_eq]
      constructor
      · intro hc
        obtain ⟨mid, heq, hf⟩ := (matchLiteralCI_some_iff linkedinInPat l (c :: suf)).mp hm
        exact ⟨mid, c, suf, heq, hf, hc⟩
      · rintro ⟨mid, c2, suf2, heq, hf, hc2⟩
        have : matchLiteralCI linkedinInPat l = some (c2 :: suf2) :=
          (matchLiteralCI_some_iff linkedinInPat l (c2 :: suf2)).mpr ⟨mid, heq, hf⟩
        rw [hm] at this
        cases this
        exact hc2

theorem profilePageSearch_iff : ∀ (l : List Char),
    profilePageSearch l = true ↔
    ∃ pre suf, l = pre ++ suf ∧ profilePageAt suf = true := by
  intro l
  induction l with
  | nil =>
    constructor
    · intro h
      exact ⟨[], [], rfl, h⟩
    · rintro ⟨pre, suf, heq, hat⟩
      have hpre : pre = [] := by
        cases pre with
        | nil => rfl
        | cons a as => simp at heq
      have hsuf : suf = [] := by
        rw [hpre] at heq
        simpa using heq.symm
      subst hpre
      subst hsuf
      exact hat
  | cons c rest ih =>
    unfold profilePageSearch
    constructor
    · intro h
      rcases Bool.or_eq_true_iff.mp h with h | h
      · exact ⟨[], c :: rest, rfl, h⟩
      · obtain ⟨pre, suf, heq, hat⟩ := ih.mp h
        exact ⟨c :: pre, suf, by simp [heq], hat⟩
    · rintro ⟨pre, suf, heq, hat⟩
      cases pre with
      | nil =>
        simp only [List.nil_append] at heq
        subst heq
        rw [hat]
        simp
      | cons a as =>
        simp only [List.cons_append, List.cons.injEq] at heq
        rw [Bool.or_eq_true_iff]
        right
        exact ih.mpr ⟨as, suf, heq.2, hat⟩

/-- The case-insensitive occurrence, somewhere in the string, of the literal
`linkedin.com/in/` followed by at least one non-slash character. -/
def hasProfileSubstr (s : String) : Prop :=
  ∃ pre mid c suf, s.data = pre ++ mid ++ c :: suf ∧
    List.Forall₂ (fun a b => a.toLower = b.toLower) mid linkedinInPat ∧ c ≠ '/'

/-- C9. The page classifier accepts exactly the URLs containing, anywhere and
case-insensitively, `linkedin.com/in/` followed by a non-slash character; in
particular it accepts a URL whose host is not linkedin.com. -/
theorem isLinkedInProfilePage_substring_iff :
    (∀ url : String, isLinkedInProfilePage url = true ↔ hasProfileSubstr url) ∧
    isLinkedInProfilePage "https://evil.example/linkedin.com/in/x" = true := by
  constructor
  · intro url
    unfold isLinkedInProfilePage hasProfileSubstr
    rw [profilePageSearch_iff]
    constructor
    · rintro ⟨pre, suf, heq, hat⟩
      obtain ⟨mid, c, suf2, hsuf, hf, hc⟩ := (profilePageAt_iff suf).mp hat
      refine ⟨pre, mid, c, suf2, ?_, hf, hc⟩
      rw [heq, hsuf]
      simp
    · rintro ⟨pre, mid, c, suf, heq, hf, hc⟩
      refine ⟨pre, mid ++ c :: suf, ?_, (profilePageAt_iff _).mpr ⟨mid, c, suf, rfl, hf, hc⟩⟩
      rw [heq]
      simp
  · decide

/-- Witness for C9: the host-confusion URL indeed contains the pattern. -/
theorem isLinkedInProfilePage_substring_iff_witness :
    hasProfileSubstr "https://evil.example/linkedin.com/in/x" :=
  (isLinkedInProfilePage_substring_iff.1 _).mp isLinkedInProfilePage_substring_iff.2

/-- C8 counterexample: the URL given in the claim has host `site.example`,
which the identifier pattern (anchored on the literal `linkedin.com/in/`)
does not match, so the identifier is absent rather than `"jane-doe"`. -/
theorem extractPublicIdentifier_site_example_cex :
    extractPublicIdentifier "https://site.example/in/jane-doe/?trk=abc" = none := by
  decide

theorem pubIdAt_isSome_iff (l : List Char) :
    (pubIdAt l).isSome = true ↔
    ∃ mid c suf, l = mid ++ c :: suf ∧
      List.Forall₂ (fun a b => a.toLower = b.toLower) mid linkedinInPat ∧
      (c ≠ '/' && c ≠ '?' && c ≠ '#') = true := by
  unfold pubIdAt
  cases hm : matchLiteralCI linkedinInPat l with
  | none =>
    simp only [Option.isSome_none, Bool.false_eq_true, false_iff]
    rintro ⟨mid, c, suf, heq, hf, hc⟩
    have : matchLiteralCI linkedinInPat l = some (c :: suf) :=
      (matchLiteralCI_some_iff linkedinInPat l (c :: suf)).mpr ⟨mid, heq, hf⟩
    rw [hm] at this
    cases this
  | some rest =>
    cases rest with
    | nil =>
      constructor
      · intro h
        simp at h
      · rintro ⟨mid, c, suf, heq, hf, hc⟩
        have : matchLiteralCI linkedinInPat l = some (c :: suf) :=
          (matchLiteralCI_some_iff linkedinInPat l (c :: suf)).mpr ⟨mid, heq, hf⟩
        rw [hm] at this
        cases this
    | cons c suf =>
      by_cases hpc : (c ≠ '/' && c ≠ '?' && c ≠ '#') = true
      · simp only [List.takeWhile_cons, hpc, if_true, List.isEmpty_cons,
          Bool.false_eq_true, if_false, Option.isSome_some, true_iff]
        obtain ⟨mid, heq, hf⟩ := (matchLiteralCI_some_iff linkedinInPat l (c :: suf)).mp hm
        exact ⟨mid, c, suf, heq, hf, hpc⟩
      · have hpcf : (c ≠ '/' && c ≠ '?' && c ≠ '#') = false :=
          Bool.not_eq_true _ ▸ Bool.of_not_eq_true hpc
        simp only [List.takeWhile_cons, hpcf, Bool.false_eq_true, if_false,
          List.isEmpty_nil, if_true, Option.isSome_none, false_iff]
        rintro ⟨mid, c2, suf2, heq, hf, hc2⟩
        have : matchLiteralCI linkedinInPat l = some (c2 :: suf2) :=
          (matchLiteralCI_some_iff linkedinInPat l (c2 :: suf2)).mpr ⟨mid, heq, hf⟩
        rw [hm] at this
        cases this
        exact hpc hc2

theorem pubIdSearch_isSome_iff : ∀ (l : List Char),
    (pubIdSearch l).isSome = true ↔
    ∃ pre suf, l = pre ++ suf ∧ (pubIdAt suf).isSome = true := by
  intro l
  induction l with
  | nil =>
    constructor
    · intro h
      exact ⟨[], [], rfl, h⟩
    · rintro ⟨pre, suf, heq, hat⟩
      have hpre : pre = [] := by
        cases pre with
        | nil => rfl
        | cons a as => simp at heq
      have hsuf : suf = [] := by
        rw [hpre] at heq
        simpa using heq.symm
      subst hpre
      subst hsuf
      exact hat
  | cons c rest ih =>
    unfold pubIdSearch
    cases hat : pubIdAt (c :: rest) with
    | some cap =>
      simp only [Option.isSome_some, true_iff]
      exact ⟨[], c :: rest, rfl, by rw [hat]; rfl⟩
    | none =>
      constructor
      · intro h
        obtain ⟨pre, suf, heq, hsome⟩ := ih.mp h
        exact ⟨c :: pre, suf, by simp [heq], hsome⟩
      · rintro ⟨pre, suf, heq, hsome⟩
        cases pre with
        | nil =>
          simp only [List.nil_append] at heq
          subst heq
          rw [hat] at hsome
          cases hsome
        | cons a as =>
          simp only [List.cons_append, List.cons.injEq] at heq
          exact ih.mpr ⟨as, suf, heq.2, hsome⟩

/-- The case-insensitive occurrence of `linkedin.com/in/` followed by at
least one non-delimiter (slash, question mark, hash) character. -/
def hasPubIdOccur (s : String) : Prop :=
  ∃ pre mid c suf, s.data = pre ++ mid ++ c :: suf ∧
    List.Forall₂ (fun a b => a.toLower = b.toLower) mid linkedinInPat ∧
    (c ≠ '/' && c ≠ '?' && c ≠ '#') = true

/-- C8 amended: on a URL whose host carries the expected literal pattern the
canonicalisation yields identifier `"jane-doe"` (lower-casing the captured
segment) and a canonical URL without trailing slash or query string; in
general the identifier is present exactly when the pattern occurs in the
URL. -/
theorem extractPublicIdentifier_amended :
    extractPublicIdentifier "https://www.linkedin.com/in/jane-doe/?trk=abc" = some "jane-doe" ∧
    extractPublicIdentifier "https://www.linkedin.com/in/Jane-Doe/?trk=abc" = some "jane-doe" ∧
    canonicalizeHref "https://www.linkedin.com/in/jane-doe/?trk=abc" =
      "https://www.linkedin.com/in/jane-doe" ∧
    ∀ url : String, (extractPublicIdentifier url).isSome = true ↔ hasPubIdOccur url := by
  refine ⟨by decide, by decide, by decide, ?_⟩
  intro url
  unfold extractPublicIdentifier hasPubIdOccur
  rw [show ∀ (o : Option (List Char)) (f : List Char → String),
        (o.map f).isSome = o.isSome from fun o f => by cases o <;> rfl]
  rw [pubIdSearch_isSome_iff]
  constructor
  · rintro ⟨pre, suf, heq, hsome⟩
    obtain ⟨mid, c, suf2, hsuf, hf, hc⟩ := (pubIdAt_isSome_iff suf).mp hsome
    refine ⟨pre, mid, c, suf2, ?_, hf, hc⟩
    rw [heq, hsuf]
    simp
  · rintro ⟨pre, mid, c, suf, heq, hf, hc⟩
    refine ⟨pre, mid ++ c :: suf, ?_, (pubIdAt_isSome_iff _).mpr ⟨mid, c, suf, rfl, hf, hc⟩⟩
    rw [heq]
    simp

/-- Witness for C8 amended: the concrete linkedin.com URL has an occurrence
of the identifier pattern. -/
theorem extractPublicIdentifier_amended_witness :
    hasPubIdOccur "https://www.linkedin.com/in/jane-doe/?trk=abc" :=
  (extractPublicIdentifier_amended.2.2.2 _).mp (by decide)

/-- C10. When the extracted headline is nonempty but matches neither headline
pattern, `job_title` is the whole headline while `company_name` falls back,
independently, to the first experience entry's company. -/
theorem job_title_company_fallback_independent (doc : Document)
    (h1 : extractHeadline doc ≠ "")
    (h2 : atMatch (extractHeadline doc) = none)
    (h3 : pipeMatch (extractHeadline doc) = none) :
    (extractLinkedInProfile doc).profile.job_title = some (extractHeadline doc) ∧
    (extractLinkedInProfile doc).profile.company_name =
      (extractExperience doc).head?.bind LinkedInExperienceEntry.company := by
  have hparse : parseHeadlineForJob (extractHeadline doc) =
      (some (extractHeadline doc), none) := by
    unfold parseHeadlineForJob
    rw [if_neg h1, h2, h3]
  constructor
  · show jsOrOpt (parseHeadlineForJob (extractHeadline doc)).1
      ((extractExperience doc).head?.bind LinkedInExperienceEntry.title) =
      some (extractHeadline doc)
    rw [hparse]
    simp [jsOrOpt, h1]
  · show jsOrOpt (parseHeadlineForJob (extractHeadline doc)).2
      ((extractExperience doc).head?.bind LinkedInExperienceEntry.company) =
      (extractExperience doc).head?.bind LinkedInExperienceEntry.company
    rw [hparse]
    rfl

/-- Witness for C10 at a concrete document: the headline is the unparseable
`"Passionate builder"` and the company comes from the experience entry. -/
theorem job_title_company_fallback_independent_witness :
    (extractLinkedInProfile demoDoc).profile.job_title = some (extractHeadline demoDoc) ∧
    (extractLinkedInProfile demoDoc).profile.company_name =
      (extractExperience demoDoc).head?.bind LinkedInExperienceEntry.company :=
  job_title_company_fallback_independent demoDoc (by decide) (by decide) (by decide)
